import Mathlib

/-!
Verification of the reload-from-file harness
(`onpremise/reload_from_file/reload_from_file.go`) against its
natural-language specification.

The Go program is embedded shallowly:

* Go strings are byte lists (`ByteStr`); `uint32` values are `Nat`s kept
  below `2 ^ 32` (the only arithmetic operation that can overflow,
  multiplication inside the FNV hash, reduces modulo `2 ^ 32` explicitly;
  XOR of two values below `2 ^ 32` stays below `2 ^ 32`).
* The external engine (`onpremise.Engine`) is an abstract function from
  evidence to an optional results handle; `none` models `Process`
  returning an error.  A results handle exposes the two queries the
  harness uses: `AvailableProperties` and `ValuesString` (with the fixed
  `","` separator already applied); `none` from `valuesString` models an
  error return.
* `log.Fatalln` / `log.Fatalf` call `os.Exit`, which terminates the
  process WITHOUT running deferred calls.  Fatal exits are therefore
  modelled as distinguished outcomes (`TaskResult.fatal`, `Option.none`,
  `VerifyResult.mismatch`), and the ghost `freeCalls` counter records how
  many times `results.Free()` actually ran on the taken path.
* The record file decoded by `yaml.NewDecoder` is modelled as the list of
  its decoded documents; re-reading the unchanged file yields the same
  list (spec invariant I3).
* Concurrency: every spawned `executeTest` task performs one locked XOR
  update per property and one atomic increment; both commute, so the
  joined (post-`wg.Wait`) state equals the sequential fold of the tasks
  in canonical order, and order-independence is proved separately as the
  permutation lemmas below.  The reload-driver loop is driven by a trace:
  one entry per guard evaluation, holding the value of
  `evidenceProcessed` read at that guard and whether `os.Chtimes`
  succeeded in that round.
-/

namespace ReloadFromFile

/-- Go strings viewed as byte sequences. -/
abbrev ByteStr := List Nat

/-- `const fIterationCount = 4` — number of iterations over the evidence
records. -/
def fIterationCount : Nat := 4

instance : NeZero fIterationCount := ⟨by decide⟩

/-- A decoded evidence record (`map[string]string` converted to engine
evidence); the harness treats it opaquely, passing it to the engine. -/
abbrev Evidence := List (ByteStr × ByteStr)

/-- The `freport` struct.  The mutex field is not data; the lock is
modelled by the atomicity of `updateHashCode` as a state update.
`hashCodes` is the `[fIterationCount]uint32` array. -/
structure freport where
  evidenceCount : Nat
  hashCodes : Fin fIterationCount → Nat
  evidenceProcessed : Nat

/-- `updateHashCode`: `rep.hashCodes[i] ^= code` under the mutex. -/
def freport.updateHashCode (rep : freport) (code : Nat) (i : Fin fIterationCount) : freport :=
  { rep with hashCodes := Function.update rep.hashCodes i (rep.hashCodes i ^^^ code) }

/-- The FNV-1 32-bit prime used by `hash/fnv.New32`. -/
def fnvPrime : Nat := 16777619

/-- The FNV-1 32-bit offset basis used by `hash/fnv.New32`. -/
def fnvOffsetBasis : Nat := 2166136261

/-- `generateHash`: FNV-1 32-bit hash of a byte string
(`h := fnv.New32(); h.Write(bytes); h.Sum32()`): starting from the
offset basis, each byte does `h = (h * prime) mod 2^32` then `h = h ^ b`. -/
def generateHash (str : ByteStr) : Nat :=
  str.foldl (fun h b => ((h * fnvPrime) % 4294967296) ^^^ b) fnvOffsetBasis

/-- A results handle returned by `engine.Process`: the property names
reported available, and the `ValuesString(property, ",")` query
(`none` = error). -/
structure Results where
  availableProperties : List ByteStr
  valuesString : ByteStr → Option ByteStr

/-- The external engine: `Process(evidence)` returns a results handle or
an error (`none`). -/
abbrev Engine := Evidence → Option Results

/-- Outcome of one `executeTest` task.  `fatal` models `log.Fatalln`
(process exit, deferred calls skipped); `handleObtained` records whether
`engine.Process` had already returned a results handle.  The ghost fields
`foldedCodes` (the hash codes passed to `updateHashCode`, in call order)
and `freeCalls` (number of `results.Free()` invocations on the taken
path) observe the calls the task made. -/
inductive TaskResult where
  | fatal (handleObtained : Bool) (rep : freport) (foldedCodes : List Nat) (freeCalls : Nat)
  | done (rep : freport) (foldedCodes : List Nat) (freeCalls : Nat)

/-- The property loop of `executeTest`: for each available property, get
`ValuesString` (on error: fatal, flag `false`) and fold its hash into
slot `iteration`.  Returns the report after the performed updates, the
codes folded so far, and whether the loop completed. -/
def foldProperties (results : Results) (iteration : Fin fIterationCount) :
    List ByteStr → freport → freport × List Nat × Bool
  | [], rep => (rep, [], true)
  | p :: ps, rep =>
    match results.valuesString p with
    | none => (rep, [], false)
    | some value =>
      let code := generateHash value
      let out := foldProperties results iteration ps (rep.updateHashCode code iteration)
      (out.1, code :: out.2.1, out.2.2)

/-- One per-record task (`executeTest`): process the evidence (error ⇒
`log.Fatalln` before `defer results.Free()` is registered, so zero
`Free` calls); loop over the available properties folding each value's
hash (a `ValuesString` error ⇒ `log.Fatalln`, which skips the deferred
`Free`, so again zero `Free` calls); on completion increment
`evidenceProcessed` atomically, and the deferred `results.Free()` runs
exactly once. -/
def executeTest (engine : Engine) (evidence : Evidence) (rep : freport)
    (iteration : Fin fIterationCount) : TaskResult :=
  match engine evidence with
  | none => .fatal false rep [] 0
  | some results =>
    let out := foldProperties results iteration results.availableProperties rep
    if out.2.2 then
      .done { out.1 with evidenceProcessed := out.1.evidenceProcessed + 1 } out.2.1 1
    else
      .fatal true out.1 out.2.1 0

/-- The tasks spawned by `performDetectionIterations`: for each iteration
`i` in `0 ..< fIterationCount`, one task per decoded record, in file
order (canonical spawn order; completion order is immaterial, see the
permutation lemmas). -/
def allTasks (records : List Evidence) : List (Fin fIterationCount × Evidence) :=
  (List.finRange fIterationCount).flatMap fun i => records.map fun r => (i, r)

/-- The joined state after all dispatched tasks completed (`wg.Wait()`):
sequential fold of the tasks.  Any task hitting a fatal exit aborts the
whole run (`none`). -/
def runTasks (engine : Engine) : List (Fin fIterationCount × Evidence) → freport → Option freport
  | [], rep => some rep
  | t :: rest, rep =>
    match executeTest engine t.2 rep t.1 with
    | .done rep2 _ _ => runTasks engine rest rep2
    | .fatal _ _ _ _ => none

/-- Modelled from the spec: `dd_example.CountEvidenceFromFiles` is not
among the provided sources; per the spec the Record Source decodes one
structured document per entry, and the count is the number of records so
decoded, i.e. the length of the decoded record list. -/
def countEvidence (records : List Evidence) : Nat :=
  records.length

/-- The zero-initialised `var rep freport` after
`rep.evidenceCount = CountEvidenceFromFiles(...); rep.evidenceCount *= fIterationCount`. -/
def initReport (records : List Evidence) : freport :=
  { evidenceCount := countEvidence records * fIterationCount
    hashCodes := fun _ => 0
    evidenceProcessed := 0 }

/-- The reload-driver loop of `runReloadFromFileSub`.  Each trace entry is
one guard evaluation: the value of `evidenceProcessed` observed there and
whether `os.Chtimes` succeeds that round.  While the observed count is
below `evidenceCount`, the round runs: on `Chtimes` success `reloads`
is incremented, on failure `reloadFails` is incremented (non-fatal), then
the loop re-checks.  The first observation reaching `evidenceCount` ends
the loop; a complete trace of a terminating run ends with such an
observation, so the `[]` case is unreachable there. -/
def driverLoop (evidenceCount : Nat) : List (Nat × Bool) → Nat × Nat
  | [] => (0, 0)
  | (observed, chtimesOk) :: rest =>
    if observed < evidenceCount then
      let counts := driverLoop evidenceCount rest
      if chtimesOk then (counts.1 + 1, counts.2) else (counts.1, counts.2 + 1)
    else (0, 0)

/-- The diagnostic produced by the verifier's `log.Fatalf`, one field per
`%d` slot of the format string `"Hash codes do not match. Initial hash
code is '%d', but iteration '%d' has hash code '%d'. ..."`, holding the
argument the code passes into that slot. -/
structure MismatchDiag where
  initialHashCode : Nat
  printedIteration : Nat
  printedHashCode : Nat
deriving DecidableEq

/-- Outcome of the consistency verifier: a fatal mismatch diagnostic, or
the success report's per-iteration hash values in log order. -/
inductive VerifyResult where
  | mismatch (d : MismatchDiag)
  | success (hashes : List Nat)
deriving DecidableEq

/-- The verifier loop body for iterations `1 ..< fIterationCount`: compare
each slot against `initHashCode` (= `hashCodes[0]`); on the first
mismatch, `log.Fatalf` with arguments `initHashCode, rep.hashCodes[i], i`
in that order; otherwise log the slot value. -/
def verifyFrom (rep : freport) (initHashCode : Nat) :
    List (Fin fIterationCount) → VerifyResult
  | [] => .success []
  | i :: rest =>
    if initHashCode ≠ rep.hashCodes i then
      .mismatch { initialHashCode := initHashCode
                  printedIteration := rep.hashCodes i
                  printedHashCode := i.val }
    else
      match verifyFrom rep initHashCode rest with
      | .mismatch d => .mismatch d
      | .success hs => .success (rep.hashCodes i :: hs)

/-- The consistency verifier of `runReloadFromFileSub`: iteration 0 fixes
`initHashCode := hashCodes[0]` and logs it; every later slot is compared
against it. -/
def verifyHashes (rep : freport) : VerifyResult :=
  match List.finRange fIterationCount with
  | [] => .success []
  | i0 :: rest =>
    match verifyFrom rep (rep.hashCodes i0) rest with
    | .mismatch d => .mismatch d
    | .success hs => .success (rep.hashCodes i0 :: hs)

/-- Observable outcome of one `runReloadFromFileSub` run: the two
reload counters, the joined report, and the verifier's outcome. -/
structure RunOutcome where
  reloads : Nat
  reloadFails : Nat
  finalRep : freport
  verdict : VerifyResult

/-- `runReloadFromFileSub`: build the report with
`evidenceCount = count * fIterationCount`, start the dispatcher, run the
reload-driver loop until `evidenceProcessed` reaches `evidenceCount`,
join all tasks (`wg.Wait`), then verify the hash slots.  A fatal exit in
any task aborts the run (`none`). -/
def runReloadFromFileSub (engine : Engine) (records : List Evidence)
    (trace : List (Nat × Bool)) : Option RunOutcome :=
  let rep0 := initReport records
  let counts := driverLoop rep0.evidenceCount trace
  match runTasks engine (allTasks records) rep0 with
  | none => none
  | some repF =>
    some { reloads := counts.1
           reloadFails := counts.2
           finalRep := repF
           verdict := verifyHashes repF }

/-- Folding a list of hash codes into slot `i` by successive
`updateHashCode` calls (the per-iteration accumulation, in one completion
order). -/
def foldHashCodes (rep : freport) (codes : List Nat) (i : Fin fIterationCount) : freport :=
  codes.foldl (fun r c => r.updateHashCode c i) rep

/-- The `ValuesString` answers for a list of properties, in query order;
`none` if any query errors. -/
def valuesStrings (results : Results) : List ByteStr → Option (List ByteStr)
  | [] => some []
  | p :: ps =>
    match results.valuesString p with
    | none => none
    | some v =>
      match valuesStrings results ps with
      | none => none
      | some vs => some (v :: vs)

/-- A zero-initialised report, used in concrete instantiations. -/
def zeroReport : freport :=
  { evidenceCount := 0, hashCodes := fun _ => 0, evidenceProcessed := 0 }

/-- A results handle reporting zero available properties. -/
def noPropsResults : Results :=
  { availableProperties := [], valuesString := fun _ => some [] }

/-- An engine whose results report zero available properties. -/
def noPropsEngine : Engine := fun _ => some noPropsResults

/-- A results handle with one available property whose joined value
string is the single byte `84`. -/
def onePropResults : Results :=
  { availableProperties := [[73]], valuesString := fun _ => some [84] }

/-- An engine always returning `onePropResults`. -/
def onePropEngine : Engine := fun _ => some onePropResults

/-- The report state in which a task over `onePropEngine` starting from
`zeroReport` at iteration `0` completes. -/
def onePropExit : freport :=
  { evidenceCount := 0
    hashCodes := Function.update (fun _ => 0) 0 (0 ^^^ generateHash [84])
    evidenceProcessed := 1 }

/-- A results handle whose `valuesString` query errors for every
property: `executeTest` over it hits the `log.Fatalln` path after the
handle was obtained. -/
def badValuesResults : Results :=
  { availableProperties := [[65]], valuesString := fun _ => none }

/-- An engine always returning `badValuesResults`. -/
def badValuesEngine : Engine := fun _ => some badValuesResults

/-- A report whose hash slots are `[0, 5, 0, 0]`: slots 0 and 1 disagree,
so the verifier takes its fatal branch at index 1. -/
def mismatchReport : freport :=
  { evidenceCount := 0
    hashCodes := fun j => if j.val = 1 then 5 else 0
    evidenceProcessed := 0 }

/-- The outcome of the run over one empty record with `noPropsEngine` and
the one-round trace `[(0, true)]`. -/
def runOutcomeA : RunOutcome :=
  { reloads := 1
    reloadFails := 0
    finalRep := { evidenceCount := 4, hashCodes := fun _ => 0, evidenceProcessed := 4 }
    verdict := .success [0, 0, 0, 0] }

/-- The joined state after the first two of the four tasks of a run over
one record with `noPropsEngine`. -/
def midRunRep : freport :=
  { evidenceCount := 4, hashCodes := fun _ => 0, evidenceProcessed := 2 }

/-! Helper lemmas about the embedded operations. -/

lemma updateHashCode_hashCodes_self (rep : freport) (code : Nat) (i : Fin fIterationCount) :
    (rep.updateHashCode code i).hashCodes i = rep.hashCodes i ^^^ code := by
  simp [freport.updateHashCode]

lemma updateHashCode_hashCodes_ne (rep : freport) (code : Nat) {i j : Fin fIterationCount}
    (h : j ≠ i) : (rep.updateHashCode code i).hashCodes j = rep.hashCodes j := by
  simp [freport.updateHashCode, Function.update_noteq h]

lemma foldProperties_evidenceProcessed (results : Results) (i : Fin fIterationCount)
    (props : List ByteStr) (rep : freport) :
    ((foldProperties results i props rep).1).evidenceProcessed = rep.evidenceProcessed := by
  induction props generalizing rep with
  | nil => rfl
  | cons p ps ih =>
    cases hv : results.valuesString p with
    | none => simp [foldProperties, hv]
    | some v => simp [foldProperties, hv, ih, freport.updateHashCode]

lemma foldProperties_evidenceCount (results : Results) (i : Fin fIterationCount)
    (props : List ByteStr) (rep : freport) :
    ((foldProperties results i props rep).1).evidenceCount = rep.evidenceCount := by
  induction props generalizing rep with
  | nil => rfl
  | cons p ps ih =>
    cases hv : results.valuesString p with
    | none => simp [foldProperties, hv]
    | some v => simp [foldProperties, hv, ih, freport.updateHashCode]

lemma foldProperties_hashCodes_ne (results : Results) {i : Fin fIterationCount}
    (props : List ByteStr) (rep : freport) {j : Fin fIterationCount} (h : j ≠ i) :
    ((foldProperties results i props rep).1).hashCodes j = rep.hashCodes j := by
  induction props generalizing rep with
  | nil => rfl
  | cons p ps ih =>
    cases hv : results.valuesString p with
    | none => simp [foldProperties, hv]
    | some v => simp [foldProperties, hv, ih, updateHashCode_hashCodes_ne _ _ h]

lemma foldProperties_hashCodes_self (results : Results) (i : Fin fIterationCount)
    (props : List ByteStr) (rep : freport) :
    ((foldProperties results i props rep).1).hashCodes i =
      (foldProperties results i props rep).2.1.foldl (fun a c => a ^^^ c) (rep.hashCodes i) := by
  induction props generalizing rep with
  | nil => rfl
  | cons p ps ih =>
    cases hv : results.valuesString p with
    | none => simp [foldProperties, hv]
    | some v =>
      simp only [foldProperties, hv, List.foldl_cons]
      rw [ih, updateHashCode_hashCodes_self]

lemma foldProperties_ok (results : Results) (i : Fin fIterationCount)
    (props : List ByteStr) (rep : freport)
    (h : (foldProperties results i props rep).2.2 = true) :
    ∃ vals, valuesStrings results props = some vals ∧
      (foldProperties results i props rep).2.1 = vals.map generateHash := by
  induction props generalizing rep with
  | nil => exact ⟨[], rfl, rfl⟩
  | cons p ps ih =>
    cases hv : results.valuesString p with
    | none => simp [foldProperties, hv] at h
    | some v =>
      have h2 : (foldProperties results i ps
          (rep.updateHashCode (generateHash v) i)).2.2 = true := by
        simpa [foldProperties, hv] using h
      obtain ⟨vals, hm, hc⟩ := ih _ h2
      refine ⟨v :: vals, ?_, ?_⟩
      · simp [valuesStrings, hv, hm]
      · simp [foldProperties, hv, hc]

lemma executeTest_done (engine : Engine) (ev : Evidence) (rep : freport)
    (i : Fin fIterationCount) (rep2 : freport) (codes : List Nat) (free : Nat)
    (h : executeTest engine ev rep i = .done rep2 codes free) :
    ∃ results, engine ev = some results ∧
      (foldProperties results i results.availableProperties rep).2.2 = true ∧
      codes = (foldProperties results i results.availableProperties rep).2.1 ∧
      rep2 = { (foldProperties results i results.availableProperties rep).1 with
               evidenceProcessed :=
                 ((foldProperties results i results.availableProperties rep).1).evidenceProcessed
                   + 1 } ∧
      free = 1 := by
  cases he : engine ev with
  | none => simp only [executeTest, he] at h; cases h
  | some results =>
    simp only [executeTest, he] at h
    by_cases hok : (foldProperties results i results.availableProperties rep).2.2 = true
    · rw [if_pos hok] at h
      cases h
      exact ⟨results, rfl, hok, rfl, rfl, rfl⟩
    · rw [if_neg hok] at h; cases h

lemma runTasks_some (engine : Engine) (ts : List (Fin fIterationCount × Evidence))
    (rep rep' : freport) (h : runTasks engine ts rep = some rep') :
    rep'.evidenceProcessed = rep.evidenceProcessed + ts.length ∧
    rep'.evidenceCount = rep.evidenceCount := by
  induction ts generalizing rep with
  | nil =>
    rw [runTasks] at h
    cases h
    simp
  | cons t rest ih =>
    rw [runTasks] at h
    cases he : executeTest engine t.2 rep t.1 with
    | fatal b r2 cs f => rw [he] at h; cases h
    | done rep2 cs f =>
      rw [he] at h
      obtain ⟨hp, hc⟩ := ih rep2 h
      obtain ⟨results, hres, hok, hcodes, hrep2, hfree⟩ :=
        executeTest_done engine t.2 rep t.1 rep2 cs f he
      subst hrep2
      constructor
      · rw [hp]
        simp only [foldProperties_evidenceProcessed, List.length_cons]
        omega
      · rw [hc]
        simp [foldProperties_evidenceCount]

lemma length_allTasks (records : List Evidence) :
    (allTasks records).length = fIterationCount * records.length := by
  have hfr : List.finRange fIterationCount = [0, 1, 2, 3] := by decide
  rw [allTasks, hfr]
  simp [List.length_append, List.length_map, fIterationCount]
  omega

lemma driverLoop_zero (trace : List (Nat × Bool)) : driverLoop 0 trace = (0, 0) := by
  cases trace with
  | nil => rfl
  | cons s rest =>
    obtain ⟨obs, ok⟩ := s
    simp [driverLoop]

lemma foldl_xor_perm {l1 l2 : List Nat} (h : l1.Perm l2) (a : Nat) :
    l1.foldl (fun x c => x ^^^ c) a = l2.foldl (fun x c => x ^^^ c) a := by
  induction h generalizing a with
  | nil => rfl
  | cons x _ ih => simp only [List.foldl_cons]; exact ih _
  | swap x y l =>
    simp only [List.foldl_cons]
    have hx : a ^^^ y ^^^ x = a ^^^ x ^^^ y := by
      rw [Nat.xor_assoc, Nat.xor_comm y x, ← Nat.xor_assoc]
    rw [hx]
  | trans _ _ ih1 ih2 => rw [ih1, ih2]

lemma foldHashCodes_hashCodes_self (rep : freport) (codes : List Nat)
    (i : Fin fIterationCount) :
    (foldHashCodes rep codes i).hashCodes i =
      codes.foldl (fun x c => x ^^^ c) (rep.hashCodes i) := by
  induction codes generalizing rep with
  | nil => rfl
  | cons c cs ih =>
    simp only [foldHashCodes, List.foldl_cons]
    rw [show (List.foldl (fun r c => r.updateHashCode c i)
        (rep.updateHashCode c i) cs) = foldHashCodes (rep.updateHashCode c i) cs i from rfl,
      ih, updateHashCode_hashCodes_self]

/-! Claim theorems. -/

/-- Claim C1, counterexample: a record whose engine result has zero
available properties does NOT contribute one fold of the hash of the
empty string — the task completes with an empty fold trace (`foldedCodes
= []`, against the claimed `[generateHash []]`), and since the hash of
the empty string is nonzero, the claimed single fold would have changed
the slot while the code leaves it untouched. -/
theorem claim_C1_counterexample :
    executeTest noPropsEngine [] zeroReport 0 =
      .done { zeroReport with evidenceProcessed := 1 } [] 1 ∧
    ([] : List Nat) ≠ [generateHash []] ∧
    generateHash [] ≠ 0 :=
  ⟨rfl, by decide, by decide⟩

/-- Claim C1, amended: a record task that completes performs one fold
into `hashSlots[iteration]` per property the engine reports as available
— the folded values being the hashes of the individual properties'
string-formatted values, in order — so its slot receives exactly the XOR
of those per-property hashes, every other slot is untouched, and
`processedCount` is incremented exactly once (a record with zero
available properties hence contributes zero folds and one increment). -/
theorem claim_C1_per_property_folds (engine : Engine) (ev : Evidence)
    (rep rep' : freport) (i : Fin fIterationCount) (codes : List Nat) (free : Nat)
    (h : executeTest engine ev rep i = .done rep' codes free) :
    (∃ results vals, engine ev = some results ∧
        valuesStrings results results.availableProperties = some vals ∧
        codes = vals.map generateHash) ∧
    rep'.hashCodes i = codes.foldl (fun x c => x ^^^ c) (rep.hashCodes i) ∧
    (∀ j, j ≠ i → rep'.hashCodes j = rep.hashCodes j) ∧
    rep'.evidenceProcessed = rep.evidenceProcessed + 1 := by
  obtain ⟨results, hres, hok, hcodes, hrep, hfree⟩ :=
    executeTest_done engine ev rep i rep' codes free h
  obtain ⟨vals, hvs, hmap⟩ := foldProperties_ok results i results.availableProperties rep hok
  subst hrep
  refine ⟨⟨results, vals, hres, hvs, hcodes.trans hmap⟩, ?_, ?_, ?_⟩
  · simpa [hcodes] using foldProperties_hashCodes_self results i results.availableProperties rep
  · intro j hj
    simpa using foldProperties_hashCodes_ne results results.availableProperties rep hj
  · simp [foldProperties_evidenceProcessed]

/-- Witness for C1's amended theorem at a concrete one-property engine. -/
theorem claim_C1_per_property_folds_witness :
    (∃ results vals, onePropEngine [] = some results ∧
        valuesStrings results results.availableProperties = some vals ∧
        [generateHash [84]] = vals.map generateHash) ∧
    onePropExit.hashCodes 0 =
      [generateHash [84]].foldl (fun x c => x ^^^ c) (zeroReport.hashCodes 0) ∧
    (∀ j, j ≠ (0 : Fin fIterationCount) → onePropExit.hashCodes j = zeroReport.hashCodes j) ∧
    onePropExit.evidenceProcessed = zeroReport.evidenceProcessed + 1 :=
  claim_C1_per_property_folds onePropEngine [] zeroReport onePropExit 0
    [generateHash [84]] 1 rfl

/-- Claim C2: after all dispatched tasks are joined, `processedCount`
equals `recordCount * N` exactly, where `recordCount` is the number of
records decoded from the source file and `N = fIterationCount`. -/
theorem claim_C2_completeness (engine : Engine) (records : List Evidence)
    (trace : List (Nat × Bool)) (out : RunOutcome)
    (h : runReloadFromFileSub engine records trace = some out) :
    out.finalRep.evidenceProcessed = records.length * fIterationCount := by
  simp only [runReloadFromFileSub] at h
  cases hr : runTasks engine (allTasks records) (initReport records) with
  | none =>
    simp only [hr] at h
    exact Option.noConfusion h
  | some repF =>
    simp only [hr, Option.some.injEq] at h
    subst h
    obtain ⟨hp, _⟩ := runTasks_some engine (allTasks records) (initReport records) repF hr
    simp only [hp, length_allTasks]
    have h1 : (initReport records).evidenceProcessed = 0 := rfl
    have h4 : fIterationCount = 4 := rfl
    rw [h1, h4]
    omega

/-- Witness for C2 at a one-record run with a no-properties engine. -/
theorem claim_C2_completeness_witness :
    runOutcomeA.finalRep.evidenceProcessed =
      ([[]] : List Evidence).length * fIterationCount :=
  claim_C2_completeness noPropsEngine [[]] [(0, true)] runOutcomeA rfl

/-- Claim C3, evaluation at the failing input: on the report with hash
slots `[0, 5, 0, 0]` the verifier exits fatally, but the diagnostic's
`iteration` slot is filled with the hash value `5` and its `hash code`
slot with the index `1` — transposed relative to both the claim and the
format string's own labels (the success half of the claim does hold:
equal slots produce the success report, as `claim_C5_empty_source`
exhibits). -/
theorem claim_C3_mismatch_diagnostic :
    verifyHashes mismatchReport =
      .mismatch { initialHashCode := 0, printedIteration := 5, printedHashCode := 1 } ∧
    (5 : Nat) ≠ 1 :=
  ⟨rfl, by decide⟩

/-- Claim C4: folding any permutation of the same multiset of hash codes
into a slot yields the same final slot value — the XOR fold is
order-independent. -/
theorem claim_C4_fold_order_independence (rep : freport) (i : Fin fIterationCount)
    (codes1 codes2 : List Nat) (h : codes1.Perm codes2) :
    (foldHashCodes rep codes1 i).hashCodes i =
      (foldHashCodes rep codes2 i).hashCodes i := by
  rw [foldHashCodes_hashCodes_self, foldHashCodes_hashCodes_self, foldl_xor_perm h]

/-- Witness for C4 on the transposed two-element fold. -/
theorem claim_C4_fold_order_independence_witness :
    (foldHashCodes zeroReport [1, 2] 0).hashCodes 0 =
      (foldHashCodes zeroReport [2, 1] 0).hashCodes 0 :=
  claim_C4_fold_order_independence zeroReport 0 [1, 2] [2, 1] (by decide)

/-- Claim C5: with an empty record source, `expectedTotal = 0`, the
driver loop makes no reload attempt regardless of what it would observe
(both counters stay `0`), and the verifier reports success with every
slot equal to the zero hash. -/
theorem claim_C5_empty_source (engine : Engine) (trace : List (Nat × Bool)) :
    runReloadFromFileSub engine [] trace =
      some { reloads := 0
             reloadFails := 0
             finalRep := initReport []
             verdict := .success [0, 0, 0, 0] } := by
  have h0 : (initReport ([] : List Evidence)).evidenceCount = 0 := rfl
  have hT : runTasks engine (allTasks ([] : List Evidence)) (initReport []) =
      some (initReport []) := rfl
  simp only [runReloadFromFileSub, h0, driverLoop_zero, hT]
  rfl

/-- Claim C6: the driver loop runs exactly through the rounds whose
observed `processedCount` is still below `expectedTotal`; each round
with a successful reload trigger adds one to `reloadSuccessCount` only
and each failed trigger adds one to `reloadFailureCount` only — a
failure is non-fatal, the loop proceeds and stops exactly at the first
observation reaching the total. -/
theorem claim_C6_reload_counting (count : Nat) (trace : List (Nat × Bool)) :
    driverLoop count trace =
      ((trace.takeWhile fun s => decide (s.1 < count)).countP fun s => s.2,
       (trace.takeWhile fun s => decide (s.1 < count)).countP fun s => !s.2) := by
  induction trace with
  | nil => rfl
  | cons s rest ih =>
    obtain ⟨obs, ok⟩ := s
    by_cases h : obs < count
    · cases ok <;>
        simp [driverLoop, h, List.takeWhile_cons, List.countP_cons, ih]
    · simp [driverLoop, h, List.takeWhile_cons]

/-- Claim C7: after any number of completed tasks, `processedCount` is
at most `expectedTotal` (= `recordCount * N`), and `expectedTotal`
itself is never modified. -/
theorem claim_C7_processed_bounded (engine : Engine) (records : List Evidence)
    (n : Nat) (rep' : freport)
    (h : runTasks engine ((allTasks records).take n) (initReport records) = some rep') :
    rep'.evidenceProcessed ≤ (initReport records).evidenceCount ∧
    rep'.evidenceCount = (initReport records).evidenceCount := by
  obtain ⟨hp, hc⟩ := runTasks_some engine _ _ _ h
  refine ⟨?_, hc⟩
  rw [hp]
  have hlen : ((allTasks records).take n).length ≤ (allTasks records).length := by
    rw [List.length_take]
    exact min_le_right _ _
  rw [length_allTasks] at hlen
  have h1 : (initReport records).evidenceProcessed = 0 := rfl
  have h2 : (initReport records).evidenceCount = records.length * fIterationCount := rfl
  rw [h1, h2, Nat.mul_comm records.length fIterationCount]
  omega

/-- Witness for C7 after two of the four tasks of a one-record run. -/
theorem claim_C7_processed_bounded_witness :
    midRunRep.evidenceProcessed ≤ (initReport [[]]).evidenceCount ∧
    midRunRep.evidenceCount = (initReport [[]]).evidenceCount :=
  claim_C7_processed_bounded noPropsEngine [[]] 2 midRunRep rfl

/-- Claim C8: two runs over the same record set that differ only in
which reload-trigger attempts succeed or fail produce the identical
joined report (hash slots and processed count) and verdict; only the
two reload counters can differ. -/
theorem claim_C8_reload_noninterference (engine : Engine) (records : List Evidence)
    (trace1 trace2 : List (Nat × Bool)) :
    (runReloadFromFileSub engine records trace1).map (fun o => (o.finalRep, o.verdict)) =
      (runReloadFromFileSub engine records trace2).map (fun o => (o.finalRep, o.verdict)) := by
  simp only [runReloadFromFileSub]
  cases runTasks engine (allTasks records) (initReport records) <;> rfl

/-- Claim C9, counterexample: when `ValuesString` errors after the
results handle was obtained, the task exits through `log.Fatalln`
(process exit, deferred calls skipped), so `results.Free()` is invoked
zero times — not exactly once as claimed. -/
theorem claim_C9_counterexample :
    executeTest badValuesEngine [] zeroReport 0 = .fatal true zeroReport [] 0 ∧
    (0 : Nat) ≠ 1 :=
  ⟨rfl, by decide⟩

/-- Claim C9, amended: `results.Free()` is invoked exactly once on the
successful completion path of a task, and zero times on any fatal path
(`log.Fatalln` calls `os.Exit`, which skips the deferred `Free`). -/
theorem claim_C9_free_calls (engine : Engine) (ev : Evidence) (rep rep' : freport)
    (i : Fin fIterationCount) (b : Bool) (codes : List Nat) (free : Nat) :
    (executeTest engine ev rep i = .done rep' codes free → free = 1) ∧
    (executeTest engine ev rep i = .fatal b rep' codes free → free = 0) := by
  constructor
  · intro h
    obtain ⟨_, _, _, _, _, hfree⟩ := executeTest_done engine ev rep i rep' codes free h
    exact hfree
  · intro h
    cases he : engine ev with
    | none =>
      simp only [executeTest, he] at h
      cases h
      rfl
    | some results =>
      simp only [executeTest, he] at h
      by_cases hok : (foldProperties results i results.availableProperties rep).2.2 = true
      · rw [if_pos hok] at h; cases h
      · rw [if_neg hok] at h; cases h; rfl

/-- Witness for C9's amended theorem: one completing task (one `Free`
call) and one fatal task after the handle was obtained (zero calls). -/
theorem claim_C9_free_calls_witness :
    (1 : Nat) = 1 ∧ (0 : Nat) = 0 :=
  ⟨(claim_C9_free_calls noPropsEngine [] zeroReport
      { zeroReport with evidenceProcessed := 1 } 0 true [] 1).1 rfl,
   (claim_C9_free_calls badValuesEngine [] zeroReport zeroReport 0 true [] 0).2 rfl⟩

/-- Claim C10: `updateHashCode code i` XORs `code` into slot `i` and
changes nothing else — every other slot, `evidenceCount` and
`evidenceProcessed` are unchanged. -/
theorem claim_C10_update_frame (rep : freport) (code : Nat) (i j : Fin fIterationCount)
    (h : j ≠ i) :
    (rep.updateHashCode code i).hashCodes i = rep.hashCodes i ^^^ code ∧
    (rep.updateHashCode code i).hashCodes j = rep.hashCodes j ∧
    (rep.updateHashCode code i).evidenceCount = rep.evidenceCount ∧
    (rep.updateHashCode code i).evidenceProcessed = rep.evidenceProcessed :=
  ⟨updateHashCode_hashCodes_self rep code i, updateHashCode_hashCodes_ne rep code h,
    rfl, rfl⟩

/-- Witness for C10 at slot `0` against slot `1`. -/
theorem claim_C10_update_frame_witness :
    (zeroReport.updateHashCode 7 0).hashCodes 0 = zeroReport.hashCodes 0 ^^^ 7 ∧
    (zeroReport.updateHashCode 7 0).hashCodes 1 = zeroReport.hashCodes 1 ∧
    (zeroReport.updateHashCode 7 0).evidenceCount = zeroReport.evidenceCount ∧
    (zeroReport.updateHashCode 7 0).evidenceProcessed = zeroReport.evidenceProcessed :=
  claim_C10_update_frame zeroReport 7 0 1 (by decide)

end ReloadFromFile
